import Mathlib

/-!
Shallow embedding of `src/k8s-blue-green-jenkins/orchestrator.py`.

The embedding models, from the source:
- the Green version-label substitution performed with `re.sub` in
  `orchestrate_blue_green_flow` (lines 327-331);
- the pod-readiness polling loop of `setup_infrastructure` (lines 131-183),
  generalized over interval and timeout with the exact loop shape
  `while elapsed < timeout: check; sleep interval`;
- the build-start wait and the build-completion wait of `wait_for_build`
  (lines 274-311);
- the pause watcher of the Green stage in `orchestrate_blue_green_flow`
  (lines 340-355), which samples the job's lastBuild number once after a
  30-second sleep and answers input requests with Proceed;
- the two-build flow gating (Blue build must succeed before the Green build
  is triggered) and the resulting release state;
- the try/except/finally structure of `main` (lines 380-400), where
  `sys.exit` raises SystemExit, which `except Exception` does not catch but
  `finally` still runs over.

External effects (kubectl, helm, the Jenkins API, the wall clock) are
modelled as observation sequences indexed by poll count or elapsed time;
loops without a source-level bound are given explicit fuel, where `none`
means the loop is still polling after `fuel` observations.
-/

namespace BlueGreen

/-! Section: Version-label substitution (orchestrate_blue_green_flow, lines 327-331)

The source runs
`re.sub(r'const APP_VERSION = ".*"', 'const APP_VERSION = "2.0 (GREEN)";', content)`.
The pattern is the literal `const APP_VERSION = "` followed by `.*` (greedy,
not crossing a newline) and a closing quote; the replacement carries a
trailing semicolon that lies outside the pattern.  `greenSub` implements
Python's leftmost, non-overlapping, greedy substitution on character lists. -/

def markerLit : List Char := "const APP_VERSION = \"".toList

def greenRepl : List Char := "const APP_VERSION = \"2.0 (GREEN)\";".toList

def greenLabel : List Char := "2.0 (GREEN)".toList

/-- Literal match: does `p` occur verbatim at the head of `s`? -/
def litMatch : List Char → List Char → Bool
  | [], _ => true
  | _ :: _, [] => false
  | a :: as, b :: bs => a == b && litMatch as bs

/-- Index of the last occurrence of `c` in `s`, if any. -/
def lastIdxOf (c : Char) : List Char → Option Nat
  | [] => none
  | a :: as =>
    match lastIdxOf c as with
    | some k => some (k + 1)
    | none => if a == c then some 0 else none

/-- One fuel-indexed pass of the substitution.  At each position: if the
literal matches, the greedy `.\*"` part is resolved by taking the maximal
newline-free segment after the literal and its last quote; the match is
replaced by `greenRepl` and scanning resumes after the match, exactly as
`re.sub` does.  Otherwise scanning advances one character.  The literal has
length 21.  Fuel at least the length of the input is always sufficient. -/
def greenSubAux : Nat → List Char → List Char
  | 0, s => s
  | _ + 1, [] => []
  | fuel + 1, c :: cs =>
    if litMatch markerLit (c :: cs) then
      match lastIdxOf '"' (((c :: cs).drop 21).takeWhile (fun a => a != '\n')) with
      | some k => greenRepl ++ greenSubAux fuel (((c :: cs).drop 21).drop (k + 1))
      | none => c :: greenSubAux fuel cs
    else c :: greenSubAux fuel cs

/-- The substitution applied to a whole artifact. -/
def greenSub (s : List Char) : List Char := greenSubAux s.length s

/-- The marker line of the Blue-stage artifact. -/
def blueText : List Char := "const APP_VERSION = \"1.0 (BLUE)\";".toList

/-! Section: Generic polling loop (setup_infrastructure, lines 137-174)

The source loop is `while time.time() - start_time < timeout: check; sleep
interval`.  Time is discrete, the predicate is evaluated at elapsed times
0, I, 2*I, ...; the loop body is entered only while the elapsed time is
strictly below the timeout. -/

inductive PollOut where
  | ready (t : Nat)
  | timedOut (t : Nat)
deriving DecidableEq

def pollLoopAux (I T : Nat) (pred : Nat → Bool) : Nat → Nat → PollOut
  | 0, t => .timedOut t
  | fuel + 1, t =>
    if t < T then
      if pred t then .ready t else pollLoopAux I T pred fuel (t + I)
    else .timedOut t

def pollLoop (I T : Nat) (pred : Nat → Bool) : PollOut :=
  pollLoopAux I T pred (T + 1) 0

/-- Predicate that first holds at time 415, inside the final partial
interval of the 7-minute pod poll. -/
def predLate (t : Nat) : Bool := decide (415 ≤ t)

/-- Predicate that first holds at time 1. -/
def predOne (t : Nat) : Bool := decide (1 ≤ t)

/-- Predicate that never holds. -/
def predNever (_ : Nat) : Bool := false

/-! Section: Pod-readiness poll of setup_infrastructure (lines 131-183)

Each check observes the external cluster: the pod may be absent, present
but with unpopulated status (the CalledProcessError/IndexError branch),
present but unready, or ready.  Every branch other than ready sleeps 10
seconds and retries; after the loop, a run that never saw readiness prints
diagnostics and calls `sys.exit(1)`. -/

inductive PollObs where
  | notFound
  | notReady
  | statusError
  | ready
deriving DecidableEq

def obsReady : PollObs → Bool
  | .ready => true
  | _ => false

inductive SetupOutcome where
  | completed
  | exited (code : Nat)
deriving DecidableEq

def setupPoll (obs : Nat → PollObs) : SetupOutcome :=
  match pollLoop 10 420 (fun t => obsReady (obs t)) with
  | .ready _ => .completed
  | .timedOut _ => .exited 1

/-! Section: Build-start wait of wait_for_build (lines 274-298)

Each iteration queries the queue item: it may be pending (no executable),
carry an executable build number, or raise NotFoundException.  On
NotFoundException the source sleeps 2 seconds and consults the job's
lastBuild number: if present it breaks with that number, otherwise the
KeyError/TypeError is swallowed and polling continues.  A pending
iteration costs 5 seconds, a NotFound-without-fallback iteration costs 7
seconds; the loop runs while the elapsed time is below 300 seconds, and a
run that never resolved a build calls `sys.exit(1)`. -/

inductive QObs where
  | pending
  | exec (n : Nat)
  | notFound (fallback : Option Nat)
deriving DecidableEq

/-- The build number an observation resolves to, if any. -/
def resolveObs : QObs → Option Nat
  | .pending => none
  | .exec n => some n
  | .notFound none => none
  | .notFound (some b) => some b

inductive StartOutcome where
  | started (buildNum : Nat) (atPoll : Nat)
  | exited (code : Nat)
deriving DecidableEq

def startWaitAux (qobs : Nat → QObs) : Nat → Nat → Nat → StartOutcome
  | 0, _, _ => .exited 1
  | fuel + 1, k, t =>
    if t < 300 then
      match qobs k with
      | .exec n => .started n k
      | .notFound (some b) => .started b k
      | .notFound none => startWaitAux qobs fuel (k + 1) (t + 7)
      | .pending => startWaitAux qobs fuel (k + 1) (t + 5)
    else .exited 1

def startWait (qobs : Nat → QObs) : StartOutcome :=
  startWaitAux qobs 301 0 0

/-! Section: Build-completion wait of wait_for_build (lines 300-311)

`while get_build_info(...)['building']: sleep 10` has no timeout; when the
loop exits, the final record is fetched by one further `get_build_info`
call.  Observations are indexed by call count; `building` is true exactly
for non-terminal statuses.  `none` means the loop is still polling after
`fuel` observations. -/

inductive BStatus where
  | queued
  | running
  | succeeded
  | failed
deriving DecidableEq

def building : BStatus → Bool
  | .queued => true
  | .running => true
  | .succeeded => false
  | .failed => false

def waitTermAux (obs : Nat → BStatus) : Nat → Nat → Option BStatus
  | 0, _ => none
  | fuel + 1, k =>
    if building (obs k) then waitTermAux obs fuel (k + 1) else some (obs (k + 1))

def waitTerm (obs : Nat → BStatus) (fuel : Nat) : Option BStatus :=
  waitTermAux obs fuel 0

/-- Lines 307-311: after the completion loop the result is checked and a
non-SUCCESS result calls `sys.exit(1)`. -/
def waitFull (obs : Nat → BStatus) (fuel : Nat) : Option (Except Nat BStatus) :=
  match waitTerm obs fuel with
  | none => none
  | some s => if s = BStatus.succeeded then some (.ok s) else some (.error 1)

/-! Section: Green-stage pause watcher (orchestrate_blue_green_flow, lines 340-355)

Each observation of the watched build either shows it finished
(`building` false, loop breaks), running with an outstanding
InputStepAction (the source calls `handle_input(..., 'Proceed')` and
breaks), or running with no input action (sleep 5 and poll again).
`none` means the loop is still polling after `fuel` observations. -/

inductive GObs where
  | finished
  | runningNoInput
  | runningInput (inputId : Nat)
deriving DecidableEq

inductive Decision where
  | proceed
  | abort
deriving DecidableEq

inductive PauseOutcome where
  | resolved (inputId : Nat) (d : Decision)
  | finishedClean
deriving DecidableEq

def pauseWatchAux (obs : Nat → GObs) : Nat → Nat → Option PauseOutcome
  | 0, _ => none
  | fuel + 1, k =>
    match obs k with
    | .finished => some .finishedClean
    | .runningInput id => some (.resolved id .proceed)
    | .runningNoInput => pauseWatchAux obs fuel (k + 1)

/-- The Green stage after triggering build 2 (lines 337-346): the queue
ticket from `build_job` is in scope but unused here; after a fixed
30-second sleep the job's lastBuild number is sampled exactly once, and
the watcher then polls that build number only.  `lastBuildAt t` is the
job's lastBuild number as a function of elapsed time; `obs b k` is the
k-th observation of build `b`. -/
def greenPauseStage (ticket : Nat) (lastBuildAt : Nat → Nat)
    (obs : Nat → Nat → GObs) (fuel : Nat) : Nat × Option PauseOutcome :=
  let bn := lastBuildAt 30
  (bn, pauseWatchAux (obs bn) fuel 0)

/-! Section: Two-build flow (orchestrate_blue_green_flow, lines 313-359)

`wait_for_build` exits the process on a failed build (line 311), so the
Green build is triggered only after the Blue build succeeded, and the
traffic switch is complete only after the Green build succeeded. -/

inductive ReleaseState where
  | uninitialized
  | blueDeployed
  | greenDeployed
deriving DecidableEq

structure FlowResult where
  greenTriggered : Bool
  state : ReleaseState
  exitCode : Option Nat
deriving DecidableEq

def orchestrateFlow (bObs gObs : Nat → BStatus) (fuel : Nat) : Option FlowResult :=
  match waitFull bObs fuel with
  | none => none
  | some (.error c) => some ⟨false, .uninitialized, some c⟩
  | some (.ok _) =>
    match waitFull gObs fuel with
    | none => none
    | some (.error c) => some ⟨true, .blueDeployed, some c⟩
    | some (.ok _) => some ⟨true, .greenDeployed, none⟩

/-! Section: main's try/except/finally (lines 380-400)

In Python, `sys.exit(c)` raises SystemExit, which derives from
BaseException and is not caught by `except Exception`; the `finally`
block runs on every path out of the `try`, including SystemExit
propagation.  The cleanup confirmation prompt is in the `finally` block. -/

inductive PyExc where
  | sysExit (code : Nat)
  | exception
deriving DecidableEq

inductive MainAct where
  | successBanner
  | printTraceback
  | offerCleanup
deriving DecidableEq

def catchableByExcept : PyExc → Bool
  | .exception => true
  | .sysExit _ => false

/-- Python try/except/finally: the handler sees only errors caught by
`except Exception`; the `finBlock` actions run on every path. -/
def pyTryExceptFinally (body : List MainAct × Except PyExc Unit)
    (handler : PyExc → List MainAct × Except PyExc Unit)
    (finBlock : List MainAct) : List MainAct × Except PyExc Unit :=
  match body with
  | (log, .ok ()) => (log ++ finBlock, .ok ())
  | (log, .error e) =>
    if catchableByExcept e then
      ((handler e).1 |> fun hlog => (log ++ hlog ++ finBlock, (handler e).2))
    else (log ++ finBlock, .error e)

/-- How one run of the phase sequence inside the `try` block ends:
normal completion, an Exception-derived error, or a `sys.exit` call
issued inside a phase (as the polling helpers do on timeout). -/
inductive PhaseEvent where
  | ok
  | raisesExc
  | callsExit (code : Nat)
deriving DecidableEq

def phasesBody : PhaseEvent → List MainAct × Except PyExc Unit
  | .ok => ([MainAct.successBanner], .ok ())
  | .raisesExc => ([], .error .exception)
  | .callsExit c => ([], .error (.sysExit c))

/-- The `except Exception` block: prints the traceback, then `sys.exit(1)`. -/
def mainHandler (_ : PyExc) : List MainAct × Except PyExc Unit :=
  ([MainAct.printTraceback], .error (.sysExit 1))

def runMain (e : PhaseEvent) : List MainAct × Except PyExc Unit :=
  pyTryExceptFinally (phasesBody e) mainHandler [MainAct.offerCleanup]

/-! Concrete observation sequences used by witnesses. -/

def obsPause : Nat → GObs :=
  fun k => if k = 0 then GObs.runningNoInput else GObs.runningInput 7

def obsInputNow : Nat → GObs := fun _ => GObs.runningInput 5

def qobsLateFallback : Nat → QObs :=
  fun k => if k = 0 then QObs.pending else QObs.notFound (some 3)


/-! Section: Theorems.  Substitution lemmas first. -/

theorem litMatch_self_append (p r : List Char) : litMatch p (p ++ r) = true := by
  induction p with
  | nil => rfl
  | cons a as ih => simp [litMatch, ih]

theorem litMatch_mem {p s : List Char} (h : litMatch p s = true) : ∀ a ∈ p, a ∈ s := by
  induction p generalizing s with
  | nil => intro a ha; cases ha
  | cons b bs ih =>
    cases s with
    | nil => cases h
    | cons c cs =>
      simp only [litMatch, Bool.and_eq_true, beq_iff_eq] at h
      obtain ⟨hbc, hrest⟩ := h
      intro a ha
      rcases List.mem_cons.mp ha with rfl | ha2
      · exact hbc ▸ List.mem_cons_self c cs
      · exact List.mem_cons_of_mem c (ih hrest a ha2)

theorem quote_mem_of_litMatch {s : List Char} (h : litMatch markerLit s = true) :
    '"' ∈ s :=
  litMatch_mem h '"' (by decide)

theorem greenSubAux_no_quote {s : List Char} (h : '"' ∉ s) :
    ∀ fuel, greenSubAux fuel s = s := by
  induction s with
  | nil => intro fuel; cases fuel <;> rfl
  | cons c cs ih =>
    intro fuel
    cases fuel with
    | zero => rfl
    | succ f =>
      cases hb : litMatch markerLit (c :: cs) with
      | true => exact absurd (quote_mem_of_litMatch hb) h
      | false =>
        have htail : '"' ∉ cs := fun hq => h (List.mem_cons_of_mem c hq)
        simp [greenSubAux, hb, ih htail]

theorem lastIdxOf_eq_none {c : Char} {s : List Char} (h : c ∉ s) :
    lastIdxOf c s = none := by
  induction s with
  | nil => rfl
  | cons a as ih =>
    have h1 : c ∉ as := fun hm => h (List.mem_cons_of_mem a hm)
    have hne : (a == c) = false := by
      apply beq_eq_false_iff_ne.mpr
      intro he
      exact h (by rw [← he]; exact List.mem_cons_self a as)
    simp [lastIdxOf, ih h1, hne]

theorem lastIdxOf_append_cons {c : Char} {v w : List Char} (hv : c ∉ v) (hw : c ∉ w) :
    lastIdxOf c (v ++ c :: w) = some v.length := by
  induction v with
  | nil => simp [lastIdxOf, lastIdxOf_eq_none hw]
  | cons a as ih =>
    have h1 : c ∉ as := fun hm => hv (List.mem_cons_of_mem a hm)
    simp [lastIdxOf, ih h1]

theorem takeWhile_append_all {p : Char → Bool} {v w : List Char}
    (h : ∀ a ∈ v, p a = true) :
    (v ++ w).takeWhile p = v ++ w.takeWhile p := by
  induction v with
  | nil => rfl
  | cons a as ih =>
    have ha : p a = true := h a (List.mem_cons_self a as)
    have htail : ∀ b ∈ as, p b = true := fun b hb => h b (List.mem_cons_of_mem a hb)
    simp [List.takeWhile_cons, ha, ih htail]

theorem not_mem_takeWhile {c : Char} {p : Char → Bool} {s : List Char} (h : c ∉ s) :
    c ∉ s.takeWhile p :=
  fun hq => h ((List.takeWhile_sublist p).subset hq)

theorem drop21_markerLit (r : List Char) : (markerLit ++ r).drop 21 = r := by
  have h : (21 : Nat) = markerLit.length := rfl
  rw [h, List.drop_left]

theorem drop_after_quote (v s : List Char) :
    (v ++ '"' :: s).drop (v.length + 1) = s := by
  have h : v ++ '"' :: s = (v ++ ['"']) ++ s := by simp
  have h2 : v.length + 1 = (v ++ ['"']).length := by simp
  rw [h, h2, List.drop_left]

theorem greenSubAux_append_marker (fuel : Nat) (r : List Char) :
    greenSubAux (fuel + 1) (markerLit ++ r) =
      if litMatch markerLit (markerLit ++ r) then
        match lastIdxOf '"' (((markerLit ++ r).drop 21).takeWhile (fun a => a != '\n')) with
        | some k => greenRepl ++ greenSubAux fuel (((markerLit ++ r).drop 21).drop (k + 1))
        | none => 'c' :: greenSubAux fuel ("onst APP_VERSION = \"".toList ++ r)
      else 'c' :: greenSubAux fuel ("onst APP_VERSION = \"".toList ++ r) := rfl

theorem greenSubAux_marker (fuel : Nat) (v s : List Char)
    (hv1 : '"' ∉ v) (hv2 : '\n' ∉ v) (hs : '"' ∉ s) :
    greenSubAux (fuel + 1) (markerLit ++ v ++ '"' :: s) = greenRepl ++ s := by
  rw [List.append_assoc, greenSubAux_append_marker, litMatch_self_append, if_pos rfl,
    drop21_markerLit]
  have hvall : ∀ a ∈ v, (a != '\n') = true := by
    intro a ha
    have : a ≠ '\n' := fun he => hv2 (he ▸ ha)
    simp [this]
  have hqw : ('"' != '\n') = true := by decide
  have hseg : (v ++ '"' :: s).takeWhile (fun a => a != '\n')
      = v ++ '"' :: s.takeWhile (fun a => a != '\n') := by
    rw [takeWhile_append_all hvall]
    simp [List.takeWhile_cons, hqw]
  rw [hseg, lastIdxOf_append_cons hv1 (not_mem_takeWhile hs)]
  show greenRepl ++ greenSubAux fuel (List.drop (v.length + 1) (v ++ '"' :: s)) =
    greenRepl ++ s
  rw [drop_after_quote, greenSubAux_no_quote hs]

/-- Claim C1 (amended): the Green version-label substitution is not idempotent.
For an artifact consisting of the marker `const APP_VERSION = "` followed by a
quote-free, newline-free label, the closing quote, and a quote-free remainder,
one application replaces the whole marker expression by
`const APP_VERSION = "2.0 (GREEN)";` and a second application inserts one
extra `;` after the replacement, because the replacement's trailing semicolon
lies outside the pattern, which stops at the closing quote. -/
theorem green_rewrite_twice (v s : List Char)
    (hv1 : '"' ∉ v) (hv2 : '\n' ∉ v) (hs : '"' ∉ s) :
    greenSub (markerLit ++ v ++ '"' :: s) = greenRepl ++ s ∧
    greenSub (greenSub (markerLit ++ v ++ '"' :: s)) = greenRepl ++ ';' :: s := by
  have h21 : markerLit.length = 21 := rfl
  have hlen : (markerLit ++ v ++ '"' :: s).length = 21 + v.length + s.length + 1 := by
    simp only [List.length_append, List.length_cons, h21]
    omega
  have h1 : greenSub (markerLit ++ v ++ '"' :: s) = greenRepl ++ s := by
    rw [greenSub, hlen]
    exact greenSubAux_marker _ v s hv1 hv2 hs
  refine ⟨h1, ?_⟩
  rw [h1]
  have hr0 : greenRepl = markerLit ++ greenLabel ++ ['"', ';'] := by decide
  have hrepl : greenRepl ++ s = markerLit ++ greenLabel ++ '"' :: ';' :: s := by
    rw [hr0]
    simp
  rw [hrepl]
  have hsq : '"' ∉ (';' :: s) := by
    intro hmem
    rcases List.mem_cons.mp hmem with he | hm
    · exact absurd he (by decide)
    · exact hs hm
  have h11 : greenLabel.length = 11 := rfl
  have hlen2 : (markerLit ++ greenLabel ++ '"' :: ';' :: s).length
      = 33 + s.length + 1 := by
    simp only [List.length_append, List.length_cons, h21, h11]
    omega
  rw [greenSub, hlen2]
  exact greenSubAux_marker _ greenLabel (';' :: s) (by decide) (by decide) hsq

/-- Claim C1 counterexample: on the Blue marker line
`const APP_VERSION = "1.0 (BLUE)";`, applying the substitution twice does not
equal applying it once (the second application appends an extra `;`). -/
theorem green_rewrite_not_idempotent :
    greenSub (greenSub blueText) ≠ greenSub blueText := by decide

/-- Witness for `green_rewrite_twice` at the Blue artifact's label and a
one-semicolon remainder. -/
theorem green_rewrite_twice_witness :
    greenSub (markerLit ++ "1.0 (BLUE)".toList ++ '"' :: [';']) = greenRepl ++ [';'] ∧
    greenSub (greenSub (markerLit ++ "1.0 (BLUE)".toList ++ '"' :: [';'])) =
      greenRepl ++ ';' :: [';'] :=
  green_rewrite_twice _ _ (by decide) (by decide) (by decide)

/-! Section: polling loop lemmas. -/

theorem pollLoopAux_timeout (I T : Nat) (pred : Nat → Bool) (hI : 0 < I)
    (hnever : ∀ s, pred s = false) :
    ∀ fuel t, t < T + I → T ≤ t + fuel →
      ∃ u, T ≤ u ∧ u < T + I ∧ pollLoopAux I T pred fuel t = PollOut.timedOut u := by
  intro fuel
  induction fuel with
  | zero =>
    intro t h1 h2
    exact ⟨t, by omega, h1, rfl⟩
  | succ f ih =>
    intro t h1 h2
    by_cases ht : t < T
    · have hp : pred t = false := hnever t
      obtain ⟨u, hu1, hu2, hu3⟩ := ih (t + I) (by omega) (by omega)
      exact ⟨u, hu1, hu2, by simp [pollLoopAux, ht, hp, hu3]⟩
    · exact ⟨t, by omega, h1, by simp [pollLoopAux, ht]⟩

theorem pollLoopAux_ready (I T τ : Nat) (pred : Nat → Bool) (hI : 0 < I)
    (hτ : τ + I ≤ T) (hready : ∀ s, τ ≤ s → pred s = true) :
    ∀ fuel t, t < τ + I → T ≤ t + fuel →
      ∃ u, u < τ + I ∧ pollLoopAux I T pred fuel t = PollOut.ready u := by
  intro fuel
  induction fuel with
  | zero => intro t h1 h2; omega
  | succ f ih =>
    intro t h1 h2
    have ht : t < T := by omega
    cases hp : pred t with
    | true => exact ⟨t, h1, by simp [pollLoopAux, ht, hp]⟩
    | false =>
      have htau : t < τ := by
        by_contra hc
        have hcontr := hready t (by omega)
        rw [hp] at hcontr
        exact Bool.false_ne_true hcontr
      obtain ⟨u, hu1, hu2⟩ := ih (t + I) (by omega) (by omega)
      exact ⟨u, hu1, by simp [pollLoopAux, ht, hp, hu2]⟩

/-- Claim C3 (amended): for the code's polling-loop shape with interval I and
timeout T, I ≤ T: if the predicate becomes (and stays) Ready at a time τ with
τ + I ≤ T, i.e. by the last scheduled check, the wait returns Ready within one
interval of τ (hence within T + I); if the predicate never becomes Ready, the
wait returns TimedOut at or after T and no later than T + I.  A predicate that
first becomes Ready strictly inside the final partial interval (after the last
check before T) is not covered: see the counterexample. -/
theorem pollLoop_bounds (I T : Nat) (pred : Nat → Bool) (hI : 0 < I) (hIT : I ≤ T) :
    (∀ τ, τ + I ≤ T → (∀ s, τ ≤ s → pred s = true) →
      ∃ u, u < τ + I ∧ pollLoop I T pred = PollOut.ready u) ∧
    ((∀ s, pred s = false) →
      ∃ u, T ≤ u ∧ u < T + I ∧ pollLoop I T pred = PollOut.timedOut u) := by
  constructor
  · intro τ hτ hready
    exact pollLoopAux_ready I T τ pred hI hτ hready (T + 1) 0 (by omega) (by omega)
  · intro hnever
    exact pollLoopAux_timeout I T pred hI hnever (T + 1) 0 (by omega) (by omega)

/-- Claim C3 counterexample: with the pod poll's interval 10 and timeout 420,
a predicate that becomes Ready at time 415 - within the timeout - is
nevertheless reported TimedOut, because the last check before the timeout runs
at time 410. -/
theorem pollLoop_misses_late_ready :
    predLate 415 = true ∧ pollLoop 10 420 predLate = PollOut.timedOut 420 :=
  ⟨rfl, by decide⟩

/-- Witness for `pollLoop_bounds` at interval 1, timeout 2, with a predicate
becoming Ready at time 1 and a predicate that never becomes Ready. -/
theorem pollLoop_bounds_witness :
    (∃ u, u < 1 + 1 ∧ pollLoop 1 2 predOne = PollOut.ready u) ∧
    (∃ u, 2 ≤ u ∧ u < 2 + 1 ∧ pollLoop 1 2 predNever = PollOut.timedOut u) :=
  ⟨(pollLoop_bounds 1 2 predOne (by decide) (by decide)).1 1 (by decide)
      (fun s hs => decide_eq_true hs),
    (pollLoop_bounds 1 2 predNever (by decide) (by decide)).2 (fun _ => rfl)⟩

/-! Section: timeout behaviour of the two bounded waits (claim C2). -/

theorem startWaitAux_pending (qobs : Nat → QObs) (h : ∀ k, qobs k = QObs.pending) :
    ∀ fuel k t, startWaitAux qobs fuel k t = StartOutcome.exited 1 := by
  intro fuel
  induction fuel with
  | zero => intro k t; rfl
  | succ f ih =>
    intro k t
    by_cases ht : t < 300
    · simp [startWaitAux, ht, h k, ih]
    · simp [startWaitAux, ht]

/-- Claim C2 (amended): on timeout neither bounded wait returns a TimedOut
value to its caller; the pod-readiness poll and the build-start poll both
terminate the process themselves with exit code 1 (the source prints
diagnostics and calls sys.exit(1) at the poll site), so fatality is decided
inside the poll, not by the caller. -/
theorem timeout_exits (obs : Nat → PollObs) (qobs : Nat → QObs)
    (h1 : ∀ t, obsReady (obs t) = false) (h2 : ∀ k, qobs k = QObs.pending) :
    setupPoll obs = SetupOutcome.exited 1 ∧ startWait qobs = StartOutcome.exited 1 := by
  constructor
  · obtain ⟨u, hu1, hu2, hu3⟩ :=
      pollLoopAux_timeout 10 420 (fun t => obsReady (obs t)) (by omega) h1 421 0
        (by omega) (by omega)
    have hp : pollLoop 10 420 (fun t => obsReady (obs t)) = PollOut.timedOut u := hu3
    simp [setupPoll, hp]
  · exact startWaitAux_pending qobs h2 301 0 0

/-- Claim C2 counterexample: a pod-readiness poll in which the pod is never
found reaches its timeout and terminates the process with exit code 1 instead
of returning a TimedOut result to its caller. -/
theorem setup_timeout_exits_process :
    setupPoll (fun _ => PollObs.notFound) = SetupOutcome.exited 1 := by decide

/-- Witness for `timeout_exits`: status never populated on the pod side, queue
item forever pending on the build side. -/
theorem timeout_exits_witness :
    setupPoll (fun _ => PollObs.statusError) = SetupOutcome.exited 1 ∧
    startWait (fun _ => QObs.pending) = StartOutcome.exited 1 :=
  timeout_exits _ _ (fun _ => rfl) (fun _ => rfl)

/-! Section: transient observations (claim C5). -/

theorem pollLoopAux_ready_iff (I T : Nat) (pred : Nat → Bool) :
    ∀ fuel t0, (∃ u, pollLoopAux I T pred fuel t0 = PollOut.ready u) ↔
      ∃ j, j < fuel ∧ t0 + I * j < T ∧ pred (t0 + I * j) = true := by
  intro fuel
  induction fuel with
  | zero =>
    intro t0
    constructor
    · rintro ⟨u, hu⟩
      simp [pollLoopAux] at hu
    · rintro ⟨j, hj, _, _⟩
      omega
  | succ f ih =>
    intro t0
    by_cases ht : t0 < T
    · cases hp : pred t0 with
      | true =>
        constructor
        · intro _
          exact ⟨0, by omega, by simpa using ht, by simpa using hp⟩
        · intro _
          exact ⟨t0, by simp [pollLoopAux, ht, hp]⟩
      | false =>
        have hstep : ∀ u, pollLoopAux I T pred (f + 1) t0 = PollOut.ready u ↔
            pollLoopAux I T pred f (t0 + I) = PollOut.ready u := by
          intro u
          simp [pollLoopAux, ht, hp]
        constructor
        · rintro ⟨u, hu⟩
          obtain ⟨j, hj1, hj2, hj3⟩ := (ih (t0 + I)).mp ⟨u, (hstep u).mp hu⟩
          have he : t0 + I * (j + 1) = t0 + I + I * j := by ring
          refine ⟨j + 1, by omega, ?_, ?_⟩
          · rw [he]
            exact hj2
          · rw [he]
            exact hj3
        · rintro ⟨j, hj1, hj2, hj3⟩
          cases j with
          | zero =>
            simp only [Nat.mul_zero, Nat.add_zero] at hj3
            rw [hp] at hj3
            exact absurd hj3 Bool.false_ne_true
          | succ j =>
            have he : t0 + I * (j + 1) = t0 + I + I * j := by ring
            rw [he] at hj2 hj3
            obtain ⟨u, hu⟩ := (ih (t0 + I)).mpr ⟨j, by omega, hj2, hj3⟩
            exact ⟨u, (hstep u).mpr hu⟩
    · constructor
      · rintro ⟨u, hu⟩
        simp [pollLoopAux, ht] at hu
      · rintro ⟨j, _, hj2, _⟩
        have hle := Nat.le_add_right t0 (I * j)
        omega

theorem obsReady_eq_ready {o : PollObs} : obsReady o = true ↔ o = PollObs.ready := by
  cases o <;> simp [obsReady]

theorem setupPoll_completed_iff (obs : Nat → PollObs) :
    setupPoll obs = SetupOutcome.completed ↔
      ∃ u, pollLoop 10 420 (fun t => obsReady (obs t)) = PollOut.ready u := by
  rcases hpl : pollLoop 10 420 (fun t => obsReady (obs t)) with u | u
  · simp [setupPoll, hpl]
  · simp [setupPoll, hpl]

theorem startWaitAux_resolve (qobs : Nat → QObs) :
    ∀ d k t b fuel,
      (∀ j, j < d → qobs (k + j) = QObs.pending ∨ qobs (k + j) = QObs.notFound none) →
      t + 7 * d < 300 → d < fuel → resolveObs (qobs (k + d)) = some b →
      startWaitAux qobs fuel k t = StartOutcome.started b (k + d) := by
  intro d
  induction d with
  | zero =>
    intro k t b fuel htr htime hfuel hres
    obtain ⟨f, rfl⟩ : ∃ f, fuel = f + 1 := ⟨fuel - 1, by omega⟩
    have ht : t < 300 := by omega
    simp only [Nat.add_zero] at hres ⊢
    rcases hq : qobs k with _ | n | fb
    · rw [hq] at hres
      simp [resolveObs] at hres
    · rw [hq] at hres
      simp only [resolveObs, Option.some.injEq] at hres
      simp [startWaitAux, ht, hq, hres]
    · rcases fb with _ | x
      · rw [hq] at hres
        simp [resolveObs] at hres
      · rw [hq] at hres
        simp only [resolveObs, Option.some.injEq] at hres
        simp [startWaitAux, ht, hq, hres]
  | succ d ih =>
    intro k t b fuel htr htime hfuel hres
    obtain ⟨f, rfl⟩ : ∃ f, fuel = f + 1 := ⟨fuel - 1, by omega⟩
    have ht : t < 300 := by omega
    have h0 := htr 0 (by omega)
    simp only [Nat.add_zero] at h0
    have hshift : ∀ j, j < d →
        qobs (k + 1 + j) = QObs.pending ∨ qobs (k + 1 + j) = QObs.notFound none := by
      intro j hj
      have hh := htr (j + 1) (by omega)
      have he : k + (j + 1) = k + 1 + j := by omega
      rw [he] at hh
      exact hh
    have hres2 : resolveObs (qobs (k + 1 + d)) = some b := by
      have he : k + (d + 1) = k + 1 + d := by omega
      rw [← he]
      exact hres
    have hgoal : k + (d + 1) = k + 1 + d := by omega
    rcases h0 with hq | hq
    · have hrec := ih (k + 1) (t + 5) b f hshift (by omega) (by omega) hres2
      rw [hgoal]
      simpa [startWaitAux, ht, hq] using hrec
    · have hrec := ih (k + 1) (t + 7) b f hshift (by omega) (by omega) hres2
      rw [hgoal]
      simpa [startWaitAux, ht, hq] using hrec

/-- Claim C5 (amended): transient external errors never surface as errors and
never abort the run, but the two polls handle them differently.  The
pod-readiness poll treats every non-ready observation (pod absent, status
unpopulated, pod unready) as Pending and keeps polling: it completes exactly
when some check within the timeout window observes readiness, and exits only
when no check ever does.  The build-start poll keeps polling through pending
and NotFound-without-fallback observations, but a queue-item NotFound whose
lastBuild fallback yields a number resolves the wait immediately with that
number instead of continuing to poll. -/
theorem transient_absorbed :
    (∀ obs : Nat → PollObs,
      setupPoll obs = SetupOutcome.completed ↔
        ∃ k, k < 42 ∧ obs (10 * k) = PollObs.ready) ∧
    (∀ (qobs : Nat → QObs) (d b : Nat),
      (∀ j, j < d → qobs j = QObs.pending ∨ qobs j = QObs.notFound none) →
      7 * d < 300 → resolveObs (qobs d) = some b →
      startWait qobs = StartOutcome.started b d) := by
  constructor
  · intro obs
    have hiff := pollLoopAux_ready_iff 10 420 (fun t => obsReady (obs t)) 421 0
    have hfin : (∃ j, j < 421 ∧ 0 + 10 * j < 420 ∧ obsReady (obs (0 + 10 * j)) = true) ↔
        ∃ k, k < 42 ∧ obs (10 * k) = PollObs.ready := by
      constructor
      · rintro ⟨j, hj1, hj2, hj3⟩
        refine ⟨j, by omega, obsReady_eq_ready.mp ?_⟩
        simpa using hj3
      · rintro ⟨k, hk, hobs⟩
        refine ⟨k, by omega, by omega, ?_⟩
        simp [hobs, obsReady]
    exact Iff.trans (setupPoll_completed_iff obs) (Iff.trans hiff hfin)
  · intro qobs d b htr htime hres
    have hres0 : resolveObs (qobs (0 + d)) = some b := by simpa using hres
    have htr0 : ∀ j, j < d →
        qobs (0 + j) = QObs.pending ∨ qobs (0 + j) = QObs.notFound none := by
      intro j hj
      simpa using htr j hj
    have hrun := startWaitAux_resolve qobs d 0 0 b 301 htr0 (by omega) (by omega) hres0
    simpa [startWait] using hrun

/-- Claim C5 counterexample: on the very first observation, a transient
queue-item NotFound whose lastBuild fallback is available makes the
build-start wait return immediately with that build; it does not treat the
observation as Pending and continue polling. -/
theorem notFound_resolves_immediately :
    startWait (fun _ => QObs.notFound (some 7)) = StartOutcome.started 7 0 := rfl

/-- Witness for `transient_absorbed`: a pod that is ready at the first check,
and a queue wait that is pending once and then resolves via the NotFound
fallback at the second poll. -/
theorem transient_absorbed_witness :
    setupPoll (fun _ => PollObs.ready) = SetupOutcome.completed ∧
    startWait qobsLateFallback = StartOutcome.started 3 1 := by
  constructor
  · exact (transient_absorbed.1 _).mpr ⟨0, by omega, rfl⟩
  · exact transient_absorbed.2 qobsLateFallback 1 3
      (fun j hj => by
        have hj0 : j = 0 := by omega
        subst hj0
        exact Or.inl rfl)
      (by omega) rfl

/-! Section: build-completion wait (claim C4). -/

theorem waitTermAux_succ (obs : Nat → BStatus) (n : Nat)
    (hrun : ∀ k, k < n → building (obs k) = true)
    (hsucc : ∀ k, n ≤ k → obs k = BStatus.succeeded) :
    ∀ fuel k, k ≤ n → n - k < fuel → waitTermAux obs fuel k = some BStatus.succeeded := by
  intro fuel
  induction fuel with
  | zero =>
    intro k hk hf
    omega
  | succ f ih =>
    intro k hk hf
    cases hb : building (obs k) with
    | true =>
      have hkn : k < n := by
        rcases Nat.eq_or_lt_of_le hk with he | hlt
        · subst he
          rw [hsucc k (Nat.le_refl k)] at hb
          cases hb
        · exact hlt
      have hrec := ih (k + 1) (by omega) (by omega)
      simpa [waitTermAux, hb] using hrec
    | false =>
      have hkn : k = n := by
        rcases Nat.eq_or_lt_of_le hk with he | hlt
        · exact he
        · rw [hrun k hlt] at hb
          cases hb
      have hnext : obs (k + 1) = BStatus.succeeded := hsucc (k + 1) (by omega)
      simp [waitTermAux, hb, hnext]

theorem waitTermAux_forever (obs : Nat → BStatus)
    (hall : ∀ k, building (obs k) = true) :
    ∀ fuel k, waitTermAux obs fuel k = none := by
  intro fuel
  induction fuel with
  | zero => intro k; rfl
  | succ f ih =>
    intro k
    simp [waitTermAux, hall k, ih]

/-- Claim C4: for any build whose observations are in-progress
(`building` true, e.g. Queued or Running) for the first n polls and
Succeeded from then on, the completion wait returns exactly the final
Succeeded record, for every n and any sufficient fuel; and for a build whose
observations are in-progress forever, the wait never returns at all (it has
no timeout), for any amount of fuel. -/
theorem waitTerm_returns_final_success :
    (∀ (obs : Nat → BStatus) (n : Nat),
      (∀ k, k < n → building (obs k) = true) →
      (∀ k, n ≤ k → obs k = BStatus.succeeded) →
      ∀ fuel, n < fuel → waitTerm obs fuel = some BStatus.succeeded) ∧
    (∀ obs : Nat → BStatus, (∀ k, building (obs k) = true) →
      ∀ fuel, waitTerm obs fuel = none) := by
  constructor
  · intro obs n hrun hsucc fuel hf
    exact waitTermAux_succ obs n hrun hsucc fuel 0 (by omega) (by omega)
  · intro obs hall fuel
    exact waitTermAux_forever obs hall fuel 0

/-- Witness for `waitTerm_returns_final_success`: a build that has already
succeeded at the first poll, and a build observed Running at every poll. -/
theorem waitTerm_returns_final_success_witness :
    waitTerm (fun _ => BStatus.succeeded) 1 = some BStatus.succeeded ∧
    waitTerm (fun _ => BStatus.running) 5 = none :=
  ⟨waitTerm_returns_final_success.1 (fun _ => BStatus.succeeded) 0
      (fun k hk => absurd hk (Nat.not_lt_zero k)) (fun _ _ => rfl) 1 (by omega),
    waitTerm_returns_final_success.2 (fun _ => BStatus.running) (fun _ => rfl) 5⟩

/-! Section: Green-stage pause watcher (claims C6, C9, C10). -/

theorem pauseWatchAux_char (obs : Nat → GObs) :
    ∀ fuel k0 r, pauseWatchAux obs fuel k0 = some r →
      ∃ k, k0 ≤ k ∧ (∀ j, k0 ≤ j → j < k → obs j = GObs.runningNoInput) ∧
        ((∃ id, r = PauseOutcome.resolved id Decision.proceed ∧
            obs k = GObs.runningInput id) ∨
          (r = PauseOutcome.finishedClean ∧ obs k = GObs.finished)) := by
  intro fuel
  induction fuel with
  | zero =>
    intro k0 r h
    cases h
  | succ f ih =>
    intro k0 r h
    cases hobs : obs k0 with
    | finished =>
      rw [pauseWatchAux, hobs] at h
      have hr : r = PauseOutcome.finishedClean := by
        cases h
        rfl
      refine ⟨k0, Nat.le_refl k0, fun j h1 h2 => absurd (Nat.lt_of_le_of_lt h1 h2)
        (Nat.lt_irrefl k0), Or.inr ⟨hr, hobs⟩⟩
    | runningInput id =>
      rw [pauseWatchAux, hobs] at h
      have hr : r = PauseOutcome.resolved id Decision.proceed := by
        cases h
        rfl
      refine ⟨k0, Nat.le_refl k0, fun j h1 h2 => absurd (Nat.lt_of_le_of_lt h1 h2)
        (Nat.lt_irrefl k0), Or.inl ⟨id, hr, hobs⟩⟩
    | runningNoInput =>
      rw [pauseWatchAux, hobs] at h
      obtain ⟨k, hk1, hk2, hk3⟩ := ih (k0 + 1) r h
      refine ⟨k, by omega, ?_, hk3⟩
      intro j h1 h2
      rcases Nat.eq_or_lt_of_le h1 with he | hlt
      · rw [← he]
        exact hobs
      · exact hk2 j hlt h2

theorem pauseWatchAux_reach (obs : Nat → GObs) :
    ∀ d k0 id, (∀ j, j < d → obs (k0 + j) = GObs.runningNoInput) →
      obs (k0 + d) = GObs.runningInput id →
      ∀ fuel, d < fuel →
        pauseWatchAux obs fuel k0 = some (PauseOutcome.resolved id Decision.proceed) := by
  intro d
  induction d with
  | zero =>
    intro k0 id hpre hin fuel hf
    obtain ⟨f, rfl⟩ : ∃ f, fuel = f + 1 := ⟨fuel - 1, by omega⟩
    simp only [Nat.add_zero] at hin
    rw [pauseWatchAux, hin]
  | succ d ih =>
    intro k0 id hpre hin fuel hf
    obtain ⟨f, rfl⟩ : ∃ f, fuel = f + 1 := ⟨fuel - 1, by omega⟩
    have h0 := hpre 0 (by omega)
    simp only [Nat.add_zero] at h0
    have hshift : ∀ j, j < d → obs (k0 + 1 + j) = GObs.runningNoInput := by
      intro j hj
      have hh := hpre (j + 1) (by omega)
      have he : k0 + (j + 1) = k0 + 1 + j := by omega
      rw [he] at hh
      exact hh
    have hin2 : obs (k0 + 1 + d) = GObs.runningInput id := by
      have he : k0 + (d + 1) = k0 + 1 + d := by omega
      rw [← he]
      exact hin
    have hrec := ih (k0 + 1) id hshift hin2 f (by omega)
    rw [pauseWatchAux, h0]
    exact hrec

/-- Claim C6: whenever the Green-stage pause watcher hands control onward
(returns), either it detected a paused-for-input observation - after a prefix
of pause-free running observations - and resolved that exact pause (with
Proceed) before returning, or the build finished and every polled observation
up to that point was running with no pause; the watcher never passes an
observed, unresolved pause. -/
theorem pause_resolved_before_resume :
    ∀ (obs : Nat → GObs) (fuel : Nat) (r : PauseOutcome),
      pauseWatchAux obs fuel 0 = some r →
      ∃ k, (∀ j, j < k → obs j = GObs.runningNoInput) ∧
        ((∃ id, r = PauseOutcome.resolved id Decision.proceed ∧
            obs k = GObs.runningInput id) ∨
          (r = PauseOutcome.finishedClean ∧ obs k = GObs.finished)) := by
  intro obs fuel r h
  obtain ⟨k, _, hk2, hk3⟩ := pauseWatchAux_char obs fuel 0 r h
  exact ⟨k, fun j hj => hk2 j (Nat.zero_le j) hj, hk3⟩

/-- Witness for `pause_resolved_before_resume`: one pause-free poll, then a
pause with input id 7, which the watcher resolves. -/
theorem pause_resolved_before_resume_witness :
    ∃ k, (∀ j, j < k → obsPause j = GObs.runningNoInput) ∧
      ((∃ id, PauseOutcome.resolved 7 Decision.proceed
          = PauseOutcome.resolved id Decision.proceed ∧
          obsPause k = GObs.runningInput id) ∨
        (PauseOutcome.resolved 7 Decision.proceed = PauseOutcome.finishedClean ∧
          obsPause k = GObs.finished)) :=
  pause_resolved_before_resume obsPause 3 (PauseOutcome.resolved 7 Decision.proceed) rfl

/-- Claim C9: the Green-stage watcher answers every detected pause with the
decision Proceed, unconditionally: no run of the watcher ever returns an
Abort resolution, and whenever the first non-quiet observation is a
paused-for-input action, the watcher returns a Proceed resolution carrying
that input id. -/
theorem pause_always_proceed :
    (∀ (obs : Nat → GObs) (fuel id : Nat),
      pauseWatchAux obs fuel 0 ≠ some (PauseOutcome.resolved id Decision.abort)) ∧
    (∀ (obs : Nat → GObs) (k id : Nat),
      (∀ j, j < k → obs j = GObs.runningNoInput) → obs k = GObs.runningInput id →
      ∀ fuel, k < fuel →
        pauseWatchAux obs fuel 0 = some (PauseOutcome.resolved id Decision.proceed)) := by
  constructor
  · intro obs fuel id h
    obtain ⟨k, _, _, hk3⟩ :=
      pauseWatchAux_char obs fuel 0 (PauseOutcome.resolved id Decision.abort) h
    rcases hk3 with ⟨id2, heq, _⟩ | ⟨heq, _⟩
    · cases heq
    · cases heq
  · intro obs k id hpre hin fuel hf
    have hpre0 : ∀ j, j < k → obs (0 + j) = GObs.runningNoInput := by
      intro j hj
      simpa using hpre j hj
    have hin0 : obs (0 + k) = GObs.runningInput id := by simpa using hin
    exact pauseWatchAux_reach obs k 0 id hpre0 hin0 fuel hf

/-- Witness for `pause_always_proceed`: with a pause observed at the first
poll, the watcher cannot return Abort and does return Proceed. -/
theorem pause_always_proceed_witness :
    pauseWatchAux obsInputNow 1 0 ≠ some (PauseOutcome.resolved 5 Decision.abort) ∧
    pauseWatchAux obsInputNow 1 0 = some (PauseOutcome.resolved 5 Decision.proceed) :=
  ⟨pause_always_proceed.1 obsInputNow 1 5,
    pause_always_proceed.2 obsInputNow 0 5
      (fun j hj => absurd hj (Nat.not_lt_zero j)) rfl 1 (by omega)⟩

/-- Claim C10: the Green-stage pause watcher polls the build number obtained
from the job's lastBuild field sampled exactly once, at the fixed 30-second
mark: its entire behaviour is unchanged under any change of the queue ticket
and under any change of the lastBuild history away from time 30, and the
build number it polls is exactly the lastBuild value at time 30. -/
theorem green_watch_uses_lastBuild :
    ∀ (t1 t2 : Nat) (f1 f2 : Nat → Nat) (obs : Nat → Nat → GObs) (fuel : Nat),
      f1 30 = f2 30 →
      greenPauseStage t1 f1 obs fuel = greenPauseStage t2 f2 obs fuel ∧
      (greenPauseStage t1 f1 obs fuel).1 = f1 30 := by
  intro t1 t2 f1 f2 obs fuel h
  constructor
  · rw [greenPauseStage, greenPauseStage, h]
  · rfl

/-- Witness for `green_watch_uses_lastBuild`: two different tickets and two
lastBuild histories agreeing only at time 30. -/
theorem green_watch_uses_lastBuild_witness :
    greenPauseStage 1 (fun _ => 9) (fun _ _ => GObs.finished) 1
      = greenPauseStage 2 (fun u => if u = 30 then 9 else 0) (fun _ _ => GObs.finished) 1 ∧
    (greenPauseStage 1 (fun _ => 9) (fun _ _ => GObs.finished) 1).1 = (fun _ => 9) 30 :=
  green_watch_uses_lastBuild 1 2 (fun _ => 9) (fun u => if u = 30 then 9 else 0)
    (fun _ _ => GObs.finished) 1 rfl

/-! Section: two-build gating (claim C7). -/

/-- Claim C7: the GreenDeployed state is reachable only when both the Blue
build and the Green build were observed to terminate Succeeded; and in every
run whose Blue build terminates Failed, the Green build is never triggered
and the release state remains Uninitialized (its last successful stage). -/
theorem green_unreachable_without_blue :
    (∀ (bObs gObs : Nat → BStatus) (fuel : Nat) (r : FlowResult),
      orchestrateFlow bObs gObs fuel = some r → r.state = ReleaseState.greenDeployed →
      waitTerm bObs fuel = some BStatus.succeeded ∧
      waitTerm gObs fuel = some BStatus.succeeded) ∧
    (∀ (bObs gObs : Nat → BStatus) (fuel : Nat) (r : FlowResult),
      waitTerm bObs fuel = some BStatus.failed →
      orchestrateFlow bObs gObs fuel = some r →
      r.greenTriggered = false ∧ r.state = ReleaseState.uninitialized) := by
  constructor
  · intro bObs gObs fuel r hflow hstate
    rcases hb : waitTerm bObs fuel with _ | sb
    · rw [orchestrateFlow, waitFull, hb] at hflow
      cases hflow
    · by_cases hsb : sb = BStatus.succeeded
      · subst hsb
        rcases hg : waitTerm gObs fuel with _ | sg
        · rw [orchestrateFlow, waitFull, hb, waitFull, hg] at hflow
          simp at hflow
        · by_cases hsg : sg = BStatus.succeeded
          · subst hsg
            exact ⟨rfl, rfl⟩
          · rw [orchestrateFlow, waitFull, hb, waitFull, hg] at hflow
            simp [hsg] at hflow
            rw [← hflow] at hstate
            simp at hstate
      · rw [orchestrateFlow, waitFull, hb] at hflow
        simp [hsb] at hflow
        rw [← hflow] at hstate
        simp at hstate
  · intro bObs gObs fuel r hfail hflow
    rw [orchestrateFlow, waitFull, hfail] at hflow
    simp at hflow
    rw [← hflow]
    exact ⟨rfl, rfl⟩

/-- Witness for `green_unreachable_without_blue`: two immediately-succeeding
builds reach GreenDeployed; a failed Blue build leaves the flow with the
Green build untriggered and the state Uninitialized. -/
theorem green_unreachable_without_blue_witness :
    (waitTerm (fun _ => BStatus.succeeded) 1 = some BStatus.succeeded ∧
      waitTerm (fun _ => BStatus.succeeded) 1 = some BStatus.succeeded) ∧
    (FlowResult.mk false ReleaseState.uninitialized (some 1)).greenTriggered = false ∧
    (FlowResult.mk false ReleaseState.uninitialized (some 1)).state
      = ReleaseState.uninitialized :=
  ⟨green_unreachable_without_blue.1 (fun _ => BStatus.succeeded)
      (fun _ => BStatus.succeeded) 1 (FlowResult.mk true ReleaseState.greenDeployed none)
      rfl rfl,
    green_unreachable_without_blue.2 (fun _ => BStatus.failed)
      (fun _ => BStatus.succeeded) 1 (FlowResult.mk false ReleaseState.uninitialized (some 1))
      rfl rfl⟩

/-! Section: cleanup offer in main (claim C8). -/

/-- Claim C8: for every way the phase sequence inside the `try` block can
end - normal completion, an Exception-derived phase failure, or a fatal
`sys.exit` raised inside a phase - the cleanup confirmation in the `finally`
block is reached, and it is the last operator-visible action before the
process terminates. -/
theorem cleanup_always_offered :
    ∀ e : PhaseEvent, MainAct.offerCleanup ∈ (runMain e).1 ∧
      (runMain e).1.getLast? = some MainAct.offerCleanup := by
  intro e
  cases e with
  | ok => exact ⟨by simp [runMain, pyTryExceptFinally, phasesBody, mainHandler],
      by simp [runMain, pyTryExceptFinally, phasesBody, mainHandler, List.getLast?]⟩
  | raisesExc => exact ⟨by simp [runMain, pyTryExceptFinally, phasesBody, mainHandler,
        catchableByExcept],
      by simp [runMain, pyTryExceptFinally, phasesBody, mainHandler, catchableByExcept,
        List.getLast?]⟩
  | callsExit c => exact ⟨by simp [runMain, pyTryExceptFinally, phasesBody, mainHandler,
        catchableByExcept],
      by simp [runMain, pyTryExceptFinally, phasesBody, mainHandler, catchableByExcept,
        List.getLast?]⟩

/-- Witness for `cleanup_always_offered` at a fatal in-phase `sys.exit(1)`. -/
theorem cleanup_always_offered_witness :
    MainAct.offerCleanup ∈ (runMain (PhaseEvent.callsExit 1)).1 ∧
      (runMain (PhaseEvent.callsExit 1)).1.getLast? = some MainAct.offerCleanup :=
  cleanup_always_offered (PhaseEvent.callsExit 1)

end BlueGreen
